import Mathlib

/-!
Formal model of the deception-orchestration engine's decision-and-execution
core (`sys_core.py`, `StrategyManager.py`, `AntiFingerprint.py`,
`LLM_Provider.py`), shallowly embedded in Lean 4.

Random draws made by the Python code via `random.random()`,
`random.randint`, `random.uniform` and `random.choice` are modelled as
explicit inputs (a rational in `[0,1)` for `random.random()`, an integer in
the documented range for `randint`, an index for `choice`).  External
collaborators (the shell, the LLM provider) are modelled as function-valued
oracles.
-/

namespace Deception

/-! ## Data model -/

/-- A trigger rule, as in `triggers.json` / `ContentManager.get_triggers`:
`{source, pattern, event, target, scene_keyword}`. -/
structure TriggerRule where
  source : String
  pattern : String
  event : String
  target : String
  scene_keyword : String
deriving DecidableEq

/-- A scene: name, category (a string in the JSON data, e.g. `"Routine"`),
working-directory zone, ordered command list. -/
structure Scene where
  name : String
  category : String
  zone : String
  commands : List String
deriving DecidableEq

/-- Per-persona record inside `state["users"]`: both fields are written
together by `execute_scene_with_feedback` (sys_core.py lines 802-805). -/
structure UserRec where
  last_scene : String
  last_run : ℚ
deriving DecidableEq

/-- The mutable engine state relevant to the claims:
`state["global_events"]` and `state["users"]`. -/
structure EngineState where
  users : String → Option UserRec
  global_events : List String

/-- `listIsPrefix p s` : the character list `p` is a prefix of `s`. -/
def listIsPrefix : List Char → List Char → Bool
  | [], _ => true
  | _ :: _, [] => false
  | p :: ps, c :: cs => p == c && listIsPrefix ps cs

/-- `listContainsSub s pat` : `pat` occurs contiguously in `s`. -/
def listContainsSub : List Char → List Char → Bool
  | [], pat => pat.isEmpty
  | s@(_ :: rest), pat => listIsPrefix pat s || listContainsSub rest pat

/-- Python's substring test `pat in s` (the empty pattern is always a
substring). -/
def containsSub (s pat : String) : Bool :=
  listContainsSub s.data pat.data

/-! ## Execution engine: adaptive retry loop

`SystemMonitor.execute_scene_with_feedback` (sys_core.py lines 833-893)
runs each command of a scene inside a `while not success and retries < 3`
loop.  On failure it consults `LLMProvider.fix_code`, which returns either
a file rewrite (`{"type": "file", ...}`) or a replacement command
(`{"type": "command", "content": ...}`).  We model the command runner as
`run : String → Option String` (`none` = success, `some err` = failure,
mirroring `_run_command_raw` returning `(output, error)`), and the fix
collaborator as an optional oracle returning a `FixResp`. -/

/-- Outcome of `LLMProvider.fix_code` as consumed by the retry loop:
either a file rewrite (whose host write may succeed or fail), or a
replacement command. -/
inductive FixResp
  | file (writeOk : Bool)
  | command (content : String)
deriving DecidableEq

/-- The adaptive retry loop of `execute_scene_with_feedback` for a single
scene command.  The fuel argument is `MAX_RETRIES - retries`; the Python
loop increments `retries` once per iteration, so fuel decreases by one per
iteration.  Returns the list of command strings actually executed (one per
`_run_command_raw` call, in order) and the final `success` flag.

Branches, mirroring the source:
* command ran without error → `success = True`, stop;
* no fix collaborator (`self.llm_provider is None`) → retry same command;
* fix is a file rewrite and the write succeeds → retry same command;
* fix is a file rewrite and the write raises → `break` (abandon);
* fix is a changed command → retry with the new command;
* fix is the unchanged command → `break` (abandon). -/
def run_retry (run : String → Option String)
    (fix : Option (String → String → FixResp)) :
    Nat → String → List String × Bool
  | 0, _ => ([], false)
  | n + 1, current =>
    match run current with
    | none => ([current], true)
    | some err =>
      match fix with
      | none =>
        let r := run_retry run fix n current
        (current :: r.1, r.2)
      | some f =>
        match f current err with
        | .file true =>
          let r := run_retry run fix n current
          (current :: r.1, r.2)
        | .file false => ([current], false)
        | .command c =>
          if c == current then ([current], false)
          else
            let r := run_retry run fix n c
            (current :: r.1, r.2)

/-- `MAX_RETRIES` in `execute_scene_with_feedback`. -/
def MAX_RETRIES : Nat := 3

/-- `SystemMonitor.process_triggers` (sys_core.py lines 393-406): for every
rule whose `source` equals the persona, scan the executed commands; on a
substring match append the rule's event unless it is already pending. -/
def process_rule (rule : TriggerRule) (persona : String)
    (commands : List String) (events : List String) : List String :=
  if rule.source == persona then
    commands.foldl (fun evs cmd =>
      if containsSub cmd rule.pattern && !(evs.contains rule.event) then
        evs ++ [rule.event]
      else evs) events
  else events

/-- The full `process_triggers` loop over the rule list. -/
def process_triggers (triggers : List TriggerRule) (persona : String)
    (commands : List String) (events : List String) : List String :=
  triggers.foldl (fun evs r => process_rule r persona commands evs) events

/-- `SystemMonitor.execute_scene_with_feedback` at the state level
(sys_core.py lines 798-902).  It first records `last_scene` / `last_run`
for the persona (lines 802-805, before the command loop), then runs every
(interpolated) command through the bounded retry loop, and finally calls
`process_triggers` with the scene's raw command list (line 901).
`interp` models `_interpolate_text`; `now` models `time.time()`.
Returns the new state together with the per-command retry transcripts. -/
def execute_scene_with_feedback (triggers : List TriggerRule)
    (run : String → Option String)
    (fix : Option (String → String → FixResp))
    (interp : String → String) (st : EngineState) (username : String)
    (scene : Scene) (now : ℚ) : EngineState × List (List String × Bool) :=
  let st1 : EngineState :=
    { st with users := fun u =>
        if u == username then some ⟨scene.name, now⟩ else st.users u }
  let results := (scene.commands.map interp).map
      (fun c => run_retry run fix MAX_RETRIES c)
  let st2 : EngineState :=
    { st1 with global_events :=
        process_triggers triggers username scene.commands st1.global_events }
  (st2, results)

/-! ### C1: the retry loop is bounded and never blocks scene progress -/

lemma run_retry_length_le (run : String → Option String)
    (fix : Option (String → String → FixResp)) :
    ∀ (n : Nat) (c : String), (run_retry run fix n c).1.length ≤ n := by
  intro n
  induction n with
  | zero => intro c; simp [run_retry]
  | succ n ih =>
    intro c
    unfold run_retry
    cases run c with
    | none => simp
    | some err =>
      cases fix with
      | none => simpa using Nat.succ_le_succ (ih c)
      | some f =>
        cases hf : f c err with
        | file ok =>
          cases ok with
          | true =>
            simp only [hf]
            simpa using Nat.succ_le_succ (ih c)
          | false => simp [hf]
        | command c' =>
          simp only [hf]
          by_cases hc : c' = c
          · simp [hc]
          · rw [if_neg (by simpa using hc)]
            simpa using Nat.succ_le_succ (ih c')

lemma run_retry_unchanged_fix (run : String → Option String) (c : String) :
    (run_retry run (some fun cur _ => FixResp.command cur) MAX_RETRIES c).1.length = 1 := by
  unfold MAX_RETRIES run_retry
  cases run c with
  | none => simp
  | some err => simp

/-- C1: for every command of a scene executed by
`execute_scene_with_feedback`, the adaptive retry loop executes the command
at most `MAX_RETRIES = 3` times (on any run/fix oracles, so in particular
it terminates); every command of the scene yields a transcript (failures
are abandoned without propagating, so execution reaches each subsequent
command); and when the fix collaborator always returns the unchanged
command the step is abandoned after a single attempt. -/
theorem retry_loop_bounded (triggers : List TriggerRule)
    (run : String → Option String)
    (fix : Option (String → String → FixResp))
    (interp : String → String) (st : EngineState) (username : String)
    (scene : Scene) (now : ℚ) :
    (execute_scene_with_feedback triggers run fix interp st username scene now).2.length
        = scene.commands.length
    ∧ (∀ res ∈ (execute_scene_with_feedback triggers run fix interp st username scene now).2,
        res.1.length ≤ 3)
    ∧ (∀ (run' : String → Option String) (c : String),
        (run_retry run' (some fun cur _ => FixResp.command cur) MAX_RETRIES c).1.length = 1) := by
  refine ⟨?_, ?_, ?_⟩
  · simp [execute_scene_with_feedback]
  · intro res hres
    simp only [execute_scene_with_feedback, List.mem_map] at hres
    obtain ⟨c, _, rfl⟩ := hres
    exact run_retry_length_le run fix MAX_RETRIES c
  · intro run' c
    exact run_retry_unchanged_fix run' c

/-! ## Trigger registry: check and consume

`SystemMonitor.check_triggers` (sys_core.py lines 377-391) scans the rule
list and returns the `scene_keyword` of the first rule whose `target`
equals the persona and whose `event` is in `state["global_events"]`.
The matched event is removed by the caller, `SystemMonitor.run`
(sys_core.py lines 487-492): it scans the rules for the first one whose
`target` equals the persona, whose `scene_keyword` equals the returned
keyword, and whose event is pending, and `list.remove`s that event. -/

/-- `SystemMonitor.check_triggers`. -/
def check_triggers (triggers : List TriggerRule) (events : List String)
    (persona : String) : Option String :=
  (triggers.find? fun r =>
      r.target == persona && events.contains r.event).map TriggerRule.scene_keyword

/-- The event-removal loop of `SystemMonitor.run` (lines 487-492): find the
first rule for this target/keyword whose event is pending and erase the
first occurrence of that event (`list.remove`). -/
def consume_event (triggers : List TriggerRule) (persona keyword : String)
    (events : List String) : List String :=
  match triggers.find? (fun r =>
      r.target == persona && r.scene_keyword == keyword && events.contains r.event) with
  | some r => events.erase r.event
  | none => events

/-! ### C2: first-match-wins check, single removal -/

lemma contains_iff (l : List String) (a : String) :
    l.contains a = true ↔ a ∈ l := List.elem_iff

lemma find?_first {α : Type} (p : α → Bool) :
    ∀ (l : List α) (a : α), l.find? p = some a →
      ∃ pre post, l = pre ++ a :: post ∧ (∀ x ∈ pre, p x = false) ∧ p a = true := by
  intro l
  induction l with
  | nil => intro a h; simp [List.find?] at h
  | cons b l ih =>
    intro a h
    by_cases hb : p b
    · rw [List.find?_cons_of_pos _ hb, Option.some.injEq] at h
      subst h
      exact ⟨[], l, by simp, by simp, hb⟩
    · rw [List.find?_cons_of_neg _ hb] at h
      obtain ⟨pre, post, rfl, hpre, hpa⟩ := ih a h
      refine ⟨b :: pre, post, rfl, ?_, hpa⟩
      intro x hx
      rcases List.mem_cons.mp hx with rfl | hx
      · exact Bool.eq_false_iff.mpr hb
      · exact hpre x hx

lemma find?_append_first {α : Type} (p : α → Bool) (pre post : List α) (a : α)
    (hpre : ∀ x ∈ pre, p x = false) (ha : p a = true) :
    (pre ++ a :: post).find? p = some a := by
  induction pre with
  | nil => simpa using List.find?_cons_of_pos post ha
  | cons b pre ih =>
    have hb : p b = false := hpre b (by simp)
    rw [List.cons_append, List.find?_cons_of_neg _ (by simp [hb])]
    exact ih fun x hx => hpre x (by simp [hx])

/-- C2: for any rule list, pending event list and persona, `check_triggers`
returns `none` exactly when no rule targets the persona with a pending
event; otherwise it returns the scene keyword of the *first* such rule (in
rule-list order), and the removal step of `SystemMonitor.run` then erases
exactly that rule's event token: its multiplicity in the pending set drops
by exactly one, and every other token's multiplicity is unchanged. -/
theorem check_triggers_first_match_and_consume (triggers : List TriggerRule)
    (events : List String) (persona : String) :
    match check_triggers triggers events persona with
    | none => ∀ r ∈ triggers, ¬(r.target = persona ∧ r.event ∈ events)
    | some k => ∃ pre r post,
        triggers = pre ++ r :: post ∧
        r.target = persona ∧ r.event ∈ events ∧ k = r.scene_keyword ∧
        (∀ r' ∈ pre, ¬(r'.target = persona ∧ r'.event ∈ events)) ∧
        consume_event triggers persona k events = events.erase r.event ∧
        (consume_event triggers persona k events).count r.event + 1
          = events.count r.event ∧
        ∀ e, e ≠ r.event →
          (consume_event triggers persona k events).count e = events.count e := by
  rcases hchk : check_triggers triggers events persona with _ | k
  · simp only [check_triggers, Option.map_eq_none'] at hchk
    rw [List.find?_eq_none] at hchk
    intro r hr hcontra
    have := hchk r hr
    simp only [Bool.and_eq_true, beq_iff_eq, contains_iff] at this
    exact this ⟨hcontra.1, hcontra.2⟩
  · simp only [check_triggers] at hchk
    rcases Option.map_eq_some'.mp hchk with ⟨r, hfind, hk⟩
    obtain ⟨pre, post, rfl, hpre, hr⟩ := find?_first _ _ _ hfind
    simp only [Bool.and_eq_true, beq_iff_eq, contains_iff] at hr
    have hconsume : consume_event (pre ++ r :: post) persona k events
        = events.erase r.event := by
      unfold consume_event
      rw [find?_append_first _ pre post r ?hpre ?hr]
      case hr => simp [hr.1, hr.2, ← hk, contains_iff]
      case hpre =>
        intro x hx
        have hx' := hpre x hx
        rw [Bool.eq_false_iff] at hx' ⊢
        intro hcontra
        apply hx'
        simp only [Bool.and_eq_true, beq_iff_eq, contains_iff] at hcontra ⊢
        exact ⟨hcontra.1.1, hcontra.2⟩
    refine ⟨pre, r, post, rfl, hr.1, hr.2, hk.symm, ?_, hconsume, ?_, ?_⟩
    · intro r' hr' hcontra
      have hx' := hpre r' hr'
      rw [Bool.eq_false_iff] at hx'
      apply hx'
      simp only [Bool.and_eq_true, beq_iff_eq, contains_iff]
      exact ⟨hcontra.1, hcontra.2⟩
    · rw [hconsume, List.count_erase_self]
      have hpos : 0 < events.count r.event := List.count_pos_iff.mpr hr.2
      omega
    · intro e he
      rw [hconsume, List.count_erase_of_ne he]

/-! ### C3: process_triggers fires events

`process_triggers` (sys_core.py lines 393-406) appends `rule["event"]` when
`rule["source"] == persona_name`, some executed command contains
`rule["pattern"]` as a substring and the event is not already pending.
Note the code compares `rule["source"]` to the persona by equality only:
there is no wildcard-source handling (ContentManager's default rules use
`"source": "any"`, which never equals a persona name). -/

lemma process_fold_eq (pat ev : String) :
    ∀ (commands events : List String),
      commands.foldl (fun evs cmd =>
          if containsSub cmd pat && !(evs.contains ev) then evs ++ [ev] else evs)
        events
      = if (∃ c ∈ commands, containsSub c pat = true) ∧ ev ∉ events then
          events ++ [ev]
        else events := by
  intro commands
  induction commands with
  | nil => intro events; simp
  | cons c cs ih =>
    intro events
    rw [List.foldl_cons]
    by_cases hc : containsSub c pat = true
    · by_cases hev : ev ∈ events
      · rw [if_neg (by simp [contains_iff, hev, hc]), ih]
        rw [if_neg (by simp [hev]), if_neg (by simp [hev])]
      · rw [if_pos (by simp [contains_iff, hev, hc]), ih]
        rw [if_neg (by simp), if_pos ⟨⟨c, by simp, hc⟩, hev⟩]
    · rw [if_neg (by simp [hc]), ih]
      by_cases hcs : (∃ c' ∈ cs, containsSub c' pat = true) ∧ ev ∉ events
      · rw [if_pos hcs, if_pos ⟨⟨hcs.1.choose, by simp [hcs.1.choose_spec.1],
          hcs.1.choose_spec.2⟩, hcs.2⟩]
      · rw [if_neg hcs, if_neg ?_]
        intro ⟨⟨c', hc', hpat⟩, hev⟩
        rcases List.mem_cons.mp hc' with rfl | hc'
        · exact hc hpat
        · exact hcs ⟨⟨c', hc', hpat⟩, hev⟩

/-- Closed form of `process_rule`: the event is appended (once, at the end)
exactly when the source matches the persona by equality, some command
contains the pattern, and the event is not already pending. -/
lemma process_rule_eq (rule : TriggerRule) (persona : String)
    (commands events : List String) :
    process_rule rule persona commands events
      = if rule.source = persona ∧ (∃ c ∈ commands, containsSub c rule.pattern = true)
            ∧ rule.event ∉ events then
          events ++ [rule.event]
        else events := by
  unfold process_rule
  by_cases hs : rule.source = persona
  · rw [if_pos (by simp [hs]), process_fold_eq]
    by_cases hrest : (∃ c ∈ commands, containsSub c rule.pattern = true) ∧ rule.event ∉ events
    · rw [if_pos hrest, if_pos ⟨hs, hrest.1, hrest.2⟩]
    · rw [if_neg hrest, if_neg (fun h => hrest ⟨h.2.1, h.2.2⟩)]
  · rw [if_neg (by simp [hs]), if_neg (fun h => hs h.1)]

lemma process_rule_mem (rule : TriggerRule) (persona : String)
    (commands events : List String) (e : String) :
    e ∈ process_rule rule persona commands events ↔
      e ∈ events ∨ (rule.source = persona
        ∧ (∃ c ∈ commands, containsSub c rule.pattern = true) ∧ rule.event = e) := by
  rw [process_rule_eq]
  by_cases h : rule.source = persona ∧ (∃ c ∈ commands, containsSub c rule.pattern = true)
      ∧ rule.event ∉ events
  · rw [if_pos h]
    simp only [List.mem_append, List.mem_singleton]
    constructor
    · rintro (he | rfl)
      · exact Or.inl he
      · exact Or.inr ⟨h.1, h.2.1, rfl⟩
    · rintro (he | ⟨_, _, rfl⟩)
      · exact Or.inl he
      · exact Or.inr rfl
  · rw [if_neg h]
    constructor
    · exact Or.inl
    · rintro (he | ⟨hs, hc, rfl⟩)
      · exact he
      · by_cases hev : rule.event ∈ events
        · exact hev
        · exact absurd ⟨hs, hc, hev⟩ h

lemma process_rule_nodup (rule : TriggerRule) (persona : String)
    (commands events : List String) (h : events.Nodup) :
    (process_rule rule persona commands events).Nodup := by
  rw [process_rule_eq]
  split
  · next hcond => simp [List.nodup_append, h, hcond.2.2]
  · exact h

/-- C3 (amended): `process_triggers` appends a rule's event token exactly
when the rule's source *equals* the persona (the code performs no
wildcard-source matching), some executed command contains the rule's
pattern as a substring, and the token was not already pending at that
point; and a pending set without duplicates never acquires one. -/
theorem process_triggers_characterization (triggers : List TriggerRule)
    (persona : String) (commands : List String) :
    ∀ events : List String,
      (∀ e, e ∈ process_triggers triggers persona commands events ↔
        e ∈ events ∨ ∃ r ∈ triggers, r.source = persona
          ∧ (∃ c ∈ commands, containsSub c r.pattern = true) ∧ r.event = e)
      ∧ (events.Nodup → (process_triggers triggers persona commands events).Nodup) := by
  induction triggers with
  | nil => intro events; simp [process_triggers]
  | cons r rs ih =>
    intro events
    have hstep : process_triggers (r :: rs) persona commands events
        = process_triggers rs persona commands (process_rule r persona commands events) := by
      simp [process_triggers]
    constructor
    · intro e
      rw [hstep, (ih _).1 e, process_rule_mem]
      constructor
      · rintro ((he | hr) | ⟨r', hr', hprop⟩)
        · exact Or.inl he
        · exact Or.inr ⟨r, by simp, hr⟩
        · exact Or.inr ⟨r', by simp [hr'], hprop⟩
      · rintro (he | ⟨r', hr', hprop⟩)
        · exact Or.inl (Or.inl he)
        · rcases List.mem_cons.mp hr' with rfl | hr'
          · exact Or.inl (Or.inr hprop)
          · exact Or.inr ⟨r', hr', hprop⟩
    · intro hnd
      rw [hstep]
      exact (ih _).2 (process_rule_nodup r persona commands events hnd)

/-- A trigger rule shaped like ContentManager's default rules, whose
source is the wildcard token `"any"`. -/
def wildcardRule : TriggerRule :=
  { source := "any", pattern := "echo", event := "build",
    target := "sys_bob", scene_keyword := "Build" }

/-- C3 counterexample: with a wildcard-source rule whose pattern occurs in
an executed command and whose event is not pending, `process_triggers` for
persona `"dev_alice"` appends nothing — contradicting the claim that the
event is appended when the rule's source is the wildcard source. -/
theorem process_triggers_wildcard_counterexample :
    wildcardRule.source = "any"
    ∧ containsSub "echo hi" wildcardRule.pattern = true
    ∧ process_triggers [wildcardRule] "dev_alice" ["echo hi"] [] = [] := by
  refine ⟨rfl, by decide, ?_⟩
  simp [process_triggers, process_rule, wildcardRule]

/-! ## Temporal gate

`SystemMonitor.is_active_window` (sys_core.py lines 245-260). -/

/-- `is_active_window`, with the `random.random()` draw as explicit input
`r`.  `start_`/`end_` are the persona's `work_hours`, `probability` its
configured activity probability, `hour` is `datetime.now().hour`. -/
def is_active_window (start_ end_ : ℕ) (probability : ℚ) (hour : ℕ)
    (r : ℚ) : Bool :=
  let is_working_hours : Bool :=
    if start_ > end_ then decide (hour ≥ start_) || decide (hour ≤ end_)
    else decide (start_ ≤ hour) && decide (hour ≤ end_)
  if is_working_hours then decide (r < probability) else decide (r < 5/100)

/-- The work window as the spec words it: wrap-around when start > end. -/
def inWorkWindow (start_ end_ hour : ℕ) : Prop :=
  if start_ > end_ then hour ≥ start_ ∨ hour ≤ end_
  else start_ ≤ hour ∧ hour ≤ end_

/-! ### C4: the temporal gate -/

/-- C4: the gate returns true exactly when the draw `r` is below the
persona's activity probability inside the (possibly wrapping) work window,
and below the fixed off-hours probability `0.05` outside it. -/
theorem is_active_window_spec (start_ end_ : ℕ) (probability : ℚ)
    (hour : ℕ) (r : ℚ) :
    is_active_window start_ end_ probability hour r = true ↔
      ((inWorkWindow start_ end_ hour ∧ r < probability)
        ∨ (¬inWorkWindow start_ end_ hour ∧ r < 5/100)) := by
  unfold is_active_window inWorkWindow
  by_cases hwrap : start_ > end_ <;>
    by_cases h1 : start_ ≤ hour <;>
      by_cases h2 : hour ≤ end_ <;>
        simp [hwrap, h1, h2, ge_iff_le, decide_eq_true_iff]

/-! ## Strategy dispatcher (Defender Agent)

`DefenderAgent.decide` and `DefenderAgent._observe_environment`
(StrategyManager.py lines 282-326). -/

/-- The strategy tags returned by `DefenderAgent.decide`. -/
inductive Strategy
  | LIVE_LLM | SKILL | FORECAST | TEMPLATE | CACHE
  | BREADCRUMB | HONEYTOKEN | VULN | MAINTENANCE
deriving DecidableEq

/-- The observations produced by `DefenderAgent._observe_environment`. -/
inductive Observation
  | ATTACK_DETECTED | PROBING_DETECTED | SYSTEM_STALE | NORMAL
deriving DecidableEq

/-- `DefenderAgent.decide` (StrategyManager.py lines 282-312), with the
NORMAL-branch `random.random()` draw as explicit input `roll`.  `hasLLM`
models `self.llm` being configured (non-None). -/
def defender_decide (obs : Observation) (hasLLM : Bool) (roll : ℚ) :
    Strategy :=
  match obs with
  | .ATTACK_DETECTED => .HONEYTOKEN
  | .PROBING_DETECTED => .VULN
  | .SYSTEM_STALE => .MAINTENANCE
  | .NORMAL =>
    if roll < 30/100 ∧ hasLLM = true then .LIVE_LLM
    else if roll < 45/100 then .SKILL
    else if roll < 60/100 then .FORECAST
    else if roll < 70/100 then .TEMPLATE
    else if roll < 85/100 then .CACHE
    else if roll < 90/100 then .BREADCRUMB
    else if roll < 95/100 then .HONEYTOKEN
    else .VULN

/-- The weight table of the spec: 30/15/15/10/15/5/5/5 percent over
live-generation delegate, skill, forecast, template, cache, breadcrumb,
honeytoken, vulnerability feint. -/
def normalWeights : List (ℚ × Strategy) :=
  [(30, .LIVE_LLM), (15, .SKILL), (15, .FORECAST), (10, .TEMPLATE),
   (15, .CACHE), (5, .BREADCRUMB), (5, .HONEYTOKEN), (5, .VULN)]

/-- Table-driven cumulative-weight lookup: walk the ordered weight list,
returning the first entry whose cumulative threshold exceeds the draw. -/
def cumLookup : List (ℚ × Strategy) → ℚ → ℚ → Strategy
  | [], _, _ => .VULN
  | (w, s) :: rest, acc, x => if x < acc + w then s else cumLookup rest (acc + w) x

/-! ### C5: the NORMAL-state weighted draw -/

/-- C5: in the NORMAL observation state with a generative collaborator
configured, `decide` is exactly the single cumulative-weight lookup over
the 30/15/15/10/15/5/5/5 table (draw scaled to percent); and the
live-generation delegate can only ever be selected when the collaborator
is configured. -/
theorem defender_decide_normal_weights (roll : ℚ) :
    defender_decide .NORMAL true roll = cumLookup normalWeights 0 (roll * 100)
    ∧ ∀ hasLLM : Bool,
        defender_decide .NORMAL hasLLM roll = .LIVE_LLM → hasLLM = true := by
  have hmul : ∀ c : ℚ, roll * 100 < c ↔ roll < c / 100 := fun c =>
    (lt_div_iff₀ (by norm_num)).symm
  constructor
  · simp only [defender_decide, normalWeights, cumLookup]
    norm_num [hmul]
  · intro hasLLM h
    cases hasLLM with
    | true => rfl
    | false =>
      exfalso
      simp only [defender_decide] at h
      split_ifs at h <;> simp_all

/-! ## Observation draw

`DefenderAgent._observe_environment` (StrategyManager.py lines 314-326)
makes THREE sequential independent `random.random()` draws:
`if random() < 0.05: ATTACK_DETECTED`, then `if random() < 0.10:
PROBING_DETECTED`, then `if random() < 0.02: SYSTEM_STALE`, else NORMAL.
We model the three draws as explicit inputs and compute the exact outcome
distribution over uniform independent draws.  All three thresholds are
multiples of `1/100`, so the uniform distribution on the grid
`{k/100 | k < 100}³` assigns every outcome exactly the Lebesgue volume of
its preimage box in `[0,1)³`. -/

/-- `DefenderAgent._observe_environment` with its three `random.random()`
draws as explicit inputs. -/
def observe_environment (r1 r2 r3 : ℚ) : Observation :=
  if r1 < 5/100 then .ATTACK_DETECTED
  else if r2 < 10/100 then .PROBING_DETECTED
  else if r3 < 2/100 then .SYSTEM_STALE
  else .NORMAL

/-- The discretized draw space: each draw is `k/100` with `k < 100`. -/
def drawGrid : Finset (ℕ × ℕ × ℕ) :=
  Finset.range 100 ×ˢ Finset.range 100 ×ˢ Finset.range 100

/-- Number of draw triples on the grid mapped to outcome `o`. -/
def gridCount (o : Observation) : ℕ :=
  (drawGrid.filter fun t =>
    observe_environment ((t.1 : ℚ)/100) ((t.2.1 : ℚ)/100) ((t.2.2 : ℚ)/100) = o).card

/-- Probability of outcome `o` under the three uniform draws. -/
def gridProb (o : Observation) : ℚ := (gridCount o : ℚ) / (100 ^ 3 : ℚ)

/-! ### C6: the observation occurrence probabilities -/

lemma draw_lt_iff (a n : ℕ) : ((a : ℚ) / 100 < (n : ℚ) / 100) ↔ a < n := by
  rw [div_lt_div_iff_of_pos_right (by norm_num)]
  exact_mod_cast Iff.rfl

lemma card_box (p q r : ℕ → Prop) [DecidablePred p] [DecidablePred q]
    [DecidablePred r] :
    (drawGrid.filter fun t => p t.1 ∧ q t.2.1 ∧ r t.2.2).card
      = ((Finset.range 100).filter p).card
        * (((Finset.range 100).filter q).card
          * ((Finset.range 100).filter r).card) := by
  have hset : (drawGrid.filter fun t => p t.1 ∧ q t.2.1 ∧ r t.2.2)
      = ((Finset.range 100).filter p)
        ×ˢ (((Finset.range 100).filter q) ×ˢ ((Finset.range 100).filter r)) := by
    ext t
    simp only [drawGrid, Finset.mem_filter, Finset.mem_product]
    tauto
  rw [hset, Finset.card_product, Finset.card_product]

lemma observe_grid_iff (t : ℕ × ℕ × ℕ) :
    (observe_environment ((t.1 : ℚ)/100) ((t.2.1 : ℚ)/100) ((t.2.2 : ℚ)/100)
        = .ATTACK_DETECTED ↔ t.1 < 5 ∧ True ∧ True)
    ∧ (observe_environment ((t.1 : ℚ)/100) ((t.2.1 : ℚ)/100) ((t.2.2 : ℚ)/100)
        = .PROBING_DETECTED ↔ ¬(t.1 < 5) ∧ t.2.1 < 10 ∧ True)
    ∧ (observe_environment ((t.1 : ℚ)/100) ((t.2.1 : ℚ)/100) ((t.2.2 : ℚ)/100)
        = .SYSTEM_STALE ↔ ¬(t.1 < 5) ∧ ¬(t.2.1 < 10) ∧ t.2.2 < 2)
    ∧ (observe_environment ((t.1 : ℚ)/100) ((t.2.1 : ℚ)/100) ((t.2.2 : ℚ)/100)
        = .NORMAL ↔ ¬(t.1 < 5) ∧ ¬(t.2.1 < 10) ∧ ¬(t.2.2 < 2)) := by
  unfold observe_environment
  have h1 : ((t.1 : ℚ)/100 < 5/100) ↔ t.1 < 5 := by
    exact_mod_cast draw_lt_iff t.1 5
  have h2 : ((t.2.1 : ℚ)/100 < 10/100) ↔ t.2.1 < 10 := by
    exact_mod_cast draw_lt_iff t.2.1 10
  have h3 : ((t.2.2 : ℚ)/100 < 2/100) ↔ t.2.2 < 2 := by
    exact_mod_cast draw_lt_iff t.2.2 2
  split_ifs with ha hb hc <;> simp_all

lemma gridCount_attack : gridCount .ATTACK_DETECTED = 50000 := by
  unfold gridCount
  rw [Finset.filter_congr fun t _ => (observe_grid_iff t).1,
    card_box (fun a => a < 5) (fun _ => True) (fun _ => True)]
  decide

lemma gridCount_probing : gridCount .PROBING_DETECTED = 95000 := by
  unfold gridCount
  rw [Finset.filter_congr fun t _ => (observe_grid_iff t).2.1,
    card_box (fun a => ¬(a < 5)) (fun b => b < 10) (fun _ => True)]
  decide

lemma gridCount_stale : gridCount .SYSTEM_STALE = 17100 := by
  unfold gridCount
  rw [Finset.filter_congr fun t _ => (observe_grid_iff t).2.2.1,
    card_box (fun a => ¬(a < 5)) (fun b => ¬(b < 10)) (fun c => c < 2)]
  decide

lemma gridCount_normal : gridCount .NORMAL = 837900 := by
  unfold gridCount
  rw [Finset.filter_congr fun t _ => (observe_grid_iff t).2.2.2,
    card_box (fun a => ¬(a < 5)) (fun b => ¬(b < 10)) (fun c => ¬(c < 2))]
  decide

/-- C6 counterexample: the occurrence probability of `PROBING_DETECTED`
under the three sequential draws is `19/200 = 9.5%`, not the claimed 10%
(the second draw is only reached when the first did not fire). -/
theorem observe_probing_not_ten_percent :
    gridProb .PROBING_DETECTED ≠ 10/100 := by
  unfold gridProb
  rw [gridCount_probing]
  norm_num

/-- C6 (amended): the observation is produced by three sequential
independent draws with thresholds 5%, 10% and 2%; the resulting occurrence
probabilities are 5% for ATTACK_DETECTED, 9.5% for PROBING_DETECTED,
1.71% for SYSTEM_STALE and 83.79% for NORMAL. -/
theorem observe_environment_distribution :
    gridProb .ATTACK_DETECTED = 5/100
    ∧ gridProb .PROBING_DETECTED = 19/200
    ∧ gridProb .SYSTEM_STALE = 171/10000
    ∧ gridProb .NORMAL = 8379/10000 := by
  unfold gridProb
  rw [gridCount_attack, gridCount_probing, gridCount_stale, gridCount_normal]
  norm_num

/-! ## Scene resolver: static catalog path

`SystemMonitor.select_scene` (sys_core.py lines 293-316), static branch:
draw a target category (70/20/10 for Routine/Variant/Anomaly), filter the
catalog by it (falling back to the whole catalog when empty), drop the
persona's previous scene name (falling back when that empties the pool),
and `random.choice` uniformly from the result. -/

/-- The category draw: `r < 0.70 → "Routine"`, `r < 0.90 → "Variant"`,
else `"Anomaly"`. -/
def target_category (r : ℚ) : String :=
  if r < 70/100 then "Routine" else if r < 90/100 then "Variant" else "Anomaly"

/-- `eligible = [s for s in scenes if s.category == target_cat]` with the
fallback `if not eligible: eligible = scenes`. -/
def eligible_scenes (scenes : List Scene) (cat : String) : List Scene :=
  if (scenes.filter fun s => s.category == cat).isEmpty then scenes
  else scenes.filter fun s => s.category == cat

/-- `pool = [s for s in eligible if s.name != last_scene]` with the
fallback `if not pool: pool = eligible`.  `last` is the persona's
`last_scene` entry (`none` when absent, in which case Python's
`!=` against `None` keeps every scene). -/
def scene_pool (scenes : List Scene) (last : Option String) (r : ℚ) :
    List Scene :=
  if ((eligible_scenes scenes (target_category r)).filter
      fun s => !(some s.name == last)).isEmpty then
    eligible_scenes scenes (target_category r)
  else
    (eligible_scenes scenes (target_category r)).filter
      fun s => !(some s.name == last)

/-- The static selection: `None` on an empty catalog, otherwise
`random.choice(pool)` with the uniform pick modelled by index `k`. -/
def select_scene_static (scenes : List Scene) (last : Option String)
    (r : ℚ) (k : ℕ) : Option Scene :=
  if scenes.isEmpty then none
  else (scene_pool scenes last r).get? (k % (scene_pool scenes last r).length)

/-! ### C7: the static selection pipeline -/

lemma eligible_scenes_ne_nil (scenes : List Scene) (cat : String)
    (h : scenes ≠ []) : eligible_scenes scenes cat ≠ [] := by
  unfold eligible_scenes
  split
  · exact h
  · next hne => simpa using hne

lemma eligible_scenes_subset (scenes : List Scene) (cat : String) :
    ∀ s ∈ eligible_scenes scenes cat, s ∈ scenes := by
  unfold eligible_scenes
  split
  · exact fun s hs => hs
  · exact fun s hs => List.mem_of_mem_filter hs

lemma scene_pool_ne_nil (scenes : List Scene) (last : Option String)
    (r : ℚ) (h : scenes ≠ []) : scene_pool scenes last r ≠ [] := by
  unfold scene_pool
  split
  · exact eligible_scenes_ne_nil scenes _ h
  · next hne => simpa using hne

lemma scene_pool_subset (scenes : List Scene) (last : Option String)
    (r : ℚ) : ∀ s ∈ scene_pool scenes last r, s ∈ scenes := by
  unfold scene_pool
  split
  · exact eligible_scenes_subset scenes _
  · exact fun s hs =>
      eligible_scenes_subset scenes _ s (List.mem_of_mem_filter hs)

/-- C7: for a non-empty catalog, the category draw follows the 70/20/10
thresholds; the pool is non-empty, drawn from the catalog, restricted to
the drawn category whenever the catalog has scenes of that category,
excludes the previous scene name whenever that leaves anything, and the
final `random.choice` returns an element of the pool for every draw
index. -/
theorem select_scene_static_spec (scenes : List Scene)
    (last : Option String) (r : ℚ) (h : scenes ≠ []) :
    (r < 70/100 → target_category r = "Routine")
    ∧ (70/100 ≤ r → r < 90/100 → target_category r = "Variant")
    ∧ (90/100 ≤ r → target_category r = "Anomaly")
    ∧ scene_pool scenes last r ≠ []
    ∧ (∀ s ∈ scene_pool scenes last r, s ∈ scenes)
    ∧ ((scenes.filter fun s => s.category == target_category r) ≠ [] →
        ∀ s ∈ scene_pool scenes last r, s.category = target_category r)
    ∧ ((∃ s ∈ eligible_scenes scenes (target_category r), some s.name ≠ last) →
        ∀ s ∈ scene_pool scenes last r, some s.name ≠ last)
    ∧ (∀ k : ℕ, ∃ s ∈ scene_pool scenes last r,
        select_scene_static scenes last r k = some s) := by
  refine ⟨?_, ?_, ?_, scene_pool_ne_nil scenes last r h,
    scene_pool_subset scenes last r, ?_, ?_, ?_⟩
  · intro hr; simp [target_category, hr]
  · intro hr1 hr2
    simp [target_category, hr2, not_lt.mpr hr1]
  · intro hr
    have h1 : ¬ r < 70/100 :=
      not_lt.mpr (le_trans (by norm_num : (70:ℚ)/100 ≤ 90/100) hr)
    have h2 : ¬ r < 90/100 := not_lt.mpr hr
    simp [target_category, h1, h2]
  · intro hfilter s hs
    have helig : eligible_scenes scenes (target_category r)
        = scenes.filter fun s => s.category == target_category r := by
      unfold eligible_scenes
      split
      · next hemp => exact absurd (by simpa using hemp) hfilter
      · rfl
    have hse : s ∈ eligible_scenes scenes (target_category r) := by
      unfold scene_pool at hs
      split at hs
      · exact hs
      · exact List.mem_of_mem_filter hs
    rw [helig] at hse
    simpa using (List.mem_filter.mp hse).2
  · intro ⟨s0, hs0, hname0⟩ s hs
    unfold scene_pool at hs
    split at hs
    · next hemp =>
      exfalso
      rw [List.isEmpty_iff] at hemp
      have : s0 ∈ (eligible_scenes scenes (target_category r)).filter
          (fun s => !(some s.name == last)) := by
        simp [List.mem_filter, hs0, hname0]
      rw [hemp] at this
      simp at this
    · have := (List.mem_filter.mp hs).2
      simpa using this
  · intro k
    have hne := scene_pool_ne_nil scenes last r h
    have hpos : 0 < (scene_pool scenes last r).length :=
      List.length_pos.mpr hne
    have hk : k % (scene_pool scenes last r).length
        < (scene_pool scenes last r).length := Nat.mod_lt _ hpos
    refine ⟨(scene_pool scenes last r).get ⟨_, hk⟩, List.get_mem _ _ _, ?_⟩
    unfold select_scene_static
    rw [if_neg (by simpa using h)]
    exact List.get?_eq_get hk

/-- The one-scene catalog of the spec's end-to-end scenario. -/
def sceneS1 : Scene :=
  { name := "S1", category := "Routine", zone := "/tmp",
    commands := ["echo hi"] }

/-- Witness for C7 on the concrete one-scene catalog. -/
theorem select_scene_static_spec_witness :
    ([sceneS1] : List Scene) ≠ [] ∧ scene_pool [sceneS1] none 0 ≠ [] :=
  ⟨by simp, (select_scene_static_spec [sceneS1] none 0 (by simp)).2.2.2.1⟩

/-! ## Command-history timestamps

Basic path: `_execute_and_ensure_paths` (sys_core.py lines 748-752) takes
`current_time = int(time.time())`, and if it does not exceed the last
recorded timestamp replaces it by `last + random.randint(1, 4)`.

Enhanced path: `RealisticTimestampManager.get_next_timestamp`
(AntiFingerprint.py lines 328-364) advances `last_command_time` by a gap
drawn with `random.uniform` (lower bound ≥ 1 second in every branch) and
then repeatedly adds one hour until the time lies in the persona's work
window.  Times are modelled as rational seconds since the epoch; the
unbounded `while` is modelled with explicit fuel (every iteration only
adds time, so the monotonicity bound holds for every fuel). -/

/-- The basic-path timestamp update (`sys_core.py` lines 749-752): `now`
is `int(time.time())`, `last` the persona process's
`last_history_timestamp`, `d` the `random.randint(1, 4)` draw. -/
def next_history_timestamp (last now d : ℤ) : ℤ :=
  if now ≤ last then last + d else now

/-- `dt.hour` of a time expressed in rational seconds. -/
def hourOf (t : ℚ) : ℤ := (⌊t / 3600⌋) % 24

/-- `RealisticTimestampManager._is_work_hours`:
`start_hour <= dt.hour < end_hour`. -/
def is_work_hours (start_ end_ : ℕ) (t : ℚ) : Bool :=
  decide ((start_ : ℤ) ≤ hourOf t) && decide (hourOf t < (end_ : ℤ))

/-- The `while not _is_work_hours: += 1 hour` loop, fuelled. -/
def skip_to_work_hours (start_ end_ : ℕ) : ℕ → ℚ → ℚ
  | 0, t => t
  | n + 1, t =>
    if is_work_hours start_ end_ t then t
    else skip_to_work_hours start_ end_ n (t + 3600)

/-- The gap drawn by `get_next_timestamp` for each command type:
`random.uniform(a, b)` is modelled as `a + u * (b - a)` with `u ∈ [0, 1]`.
Every branch has lower bound at least 1 second. -/
def gap_for (ctype : String) (u : ℚ) : ℚ :=
  if ctype == "normal" then 1 + u * 29
  else if ctype == "thinking" then 30 + u * 90
  else if ctype == "break" then 300 + u * 1500
  else if ctype == "new_session" then 3600 + u * 82800
  else 1 + u * 29

/-- `get_next_timestamp` for a non-first command (`last_command_time`
already set): add the drawn gap, then skip forward to work hours. -/
def get_next_timestamp (start_ end_ : ℕ) (fuel : ℕ) (last : ℚ)
    (ctype : String) (u : ℚ) : ℚ :=
  skip_to_work_hours start_ end_ fuel (last + gap_for ctype u)

/-! ### C8: recorded timestamps strictly increase -/

lemma gap_for_ge_one (ctype : String) (u : ℚ) (hu : 0 ≤ u) :
    1 ≤ gap_for ctype u := by
  unfold gap_for
  have h29 : 0 ≤ u * 29 := by positivity
  have h90 : 0 ≤ u * 90 := by positivity
  have h1500 : 0 ≤ u * 1500 := by positivity
  have h82800 : 0 ≤ u * 82800 := by positivity
  split_ifs <;> linarith

lemma skip_to_work_hours_ge (start_ end_ : ℕ) :
    ∀ (n : ℕ) (t : ℚ), t ≤ skip_to_work_hours start_ end_ n t := by
  intro n
  induction n with
  | zero => intro t; simp [skip_to_work_hours]
  | succ n ih =>
    intro t
    unfold skip_to_work_hours
    split
    · exact le_refl t
    · exact le_trans (by linarith) (ih (t + 3600))

/-- C8: in the basic history path the recorded timestamp strictly exceeds
the previously recorded one (for any wall-clock reading, given the
`randint(1,4)` draw is ≥ 1), and in the enhanced per-persona timestamp
manager every `get_next_timestamp` call strictly exceeds the previous
`last_command_time` (for any work window, fuel and `uniform` draw). -/
theorem history_timestamps_strict_mono :
    (∀ last now d : ℤ, 1 ≤ d → last < next_history_timestamp last now d)
    ∧ ∀ (start_ end_ fuel : ℕ) (last : ℚ) (ctype : String) (u : ℚ),
        0 ≤ u → last < get_next_timestamp start_ end_ fuel last ctype u := by
  constructor
  · intro last now d hd
    unfold next_history_timestamp
    split
    · omega
    · next hlt => omega
  · intro start_ end_ fuel last ctype u hu
    unfold get_next_timestamp
    have h1 : last + 1 ≤ last + gap_for ctype u := by
      have := gap_for_ge_one ctype u hu
      linarith
    have h2 := skip_to_work_hours_ge start_ end_ fuel (last + gap_for ctype u)
    linarith

/-- Witness for C8 at concrete inputs: basic path with `last = 10`,
`now = 5`, `d = 2`; enhanced path with window `[9,17]`, fuel 24,
`last = 0`, a "normal" command and draw `u = 0`. -/
theorem history_timestamps_strict_mono_witness :
    (1 : ℤ) ≤ 2 ∧ (10 : ℤ) < next_history_timestamp 10 5 2
    ∧ (0 : ℚ) ≤ 0 ∧ (0 : ℚ) < get_next_timestamp 9 17 24 0 "normal" 0 :=
  ⟨by norm_num, history_timestamps_strict_mono.1 10 5 2 (by norm_num),
    le_refl 0, history_timestamps_strict_mono.2 9 17 24 0 "normal" 0 (le_refl 0)⟩

/-! ## C9: executing an empty scene

`execute_scene_with_feedback` writes `last_scene`/`last_run` for the
persona *before* the command loop (sys_core.py lines 802-805), so a scene
with zero commands runs no command and fires no event but still mutates
the Cycle State. -/

/-- A scene with an empty command list. -/
def emptyScene : Scene :=
  { name := "S-empty", category := "Routine", zone := "/tmp", commands := [] }

/-- The engine's initial state (`_init_state` with no state file):
`{"global_events": [], "users": {}}`. -/
def initState : EngineState := { users := fun _ => none, global_events := [] }

/-- C9 counterexample: executing the zero-command scene `emptyScene` for
persona `"alice"` from the initial state changes the Cycle State: the
persona's record goes from absent to `{last_scene: "S-empty",
last_run: 5}`, contradicting the claim that the observable engine state is
unchanged. -/
theorem empty_scene_not_noop :
    emptyScene.commands = []
    ∧ initState.users "alice" = none
    ∧ (execute_scene_with_feedback [] (fun _ => none) none id initState
        "alice" emptyScene 5).1.users "alice"
      = some { last_scene := "S-empty", last_run := 5 } := by
  refine ⟨rfl, rfl, ?_⟩
  simp [execute_scene_with_feedback, process_triggers, emptyScene, initState]

lemma process_rule_nil_commands (rule : TriggerRule) (persona : String)
    (events : List String) : process_rule rule persona [] events = events := by
  unfold process_rule
  split <;> simp

lemma process_triggers_nil_commands (persona : String) :
    ∀ (triggers : List TriggerRule) (events : List String),
      process_triggers triggers persona [] events = events := by
  intro triggers
  induction triggers with
  | nil => intro events; simp [process_triggers]
  | cons r rs ih =>
    intro events
    show process_triggers rs persona [] (process_rule r persona [] events) = events
    rw [process_rule_nil_commands, ih]

/-- C9 (amended): executing a scene with zero commands runs no command and
leaves the global event set and every other persona's record unchanged,
but it still overwrites the executing persona's Cycle-State record with
the scene's name and the current time. -/
theorem empty_scene_execution_effect (triggers : List TriggerRule)
    (run : String → Option String)
    (fix : Option (String → String → FixResp)) (interp : String → String)
    (st : EngineState) (username : String) (scene : Scene) (now : ℚ)
    (h : scene.commands = []) :
    (execute_scene_with_feedback triggers run fix interp st username scene now).2 = []
    ∧ (execute_scene_with_feedback triggers run fix interp st username scene now).1.global_events
        = st.global_events
    ∧ (execute_scene_with_feedback triggers run fix interp st username scene now).1.users username
        = some { last_scene := scene.name, last_run := now }
    ∧ ∀ u, u ≠ username →
        (execute_scene_with_feedback triggers run fix interp st username scene now).1.users u
          = st.users u := by
  refine ⟨?_, ?_, ?_, ?_⟩
  · simp [execute_scene_with_feedback, h]
  · simp [execute_scene_with_feedback, h, process_triggers_nil_commands]
  · simp [execute_scene_with_feedback]
  · intro u hu
    simp [execute_scene_with_feedback, hu]

/-- Witness for C9 (amended) at the concrete empty scene. -/
theorem empty_scene_execution_effect_witness :
    emptyScene.commands = []
    ∧ (execute_scene_with_feedback [] (fun _ => none) none id initState
        "alice" emptyScene 5).2 = [] :=
  ⟨rfl, (empty_scene_execution_effect [] (fun _ => none) none id initState
    "alice" emptyScene 5 rfl).1⟩

/-! ## C10: contextual noise injection

`ContextualNoise.inject` (StrategyManager.py lines 375-408), reached via
`StrategyManager.apply_noise` (lines 263-265): optionally prepend
navigation fluff (`ls -la`, `pwd`), and before each command optionally
insert a status check (`git status` / `docker ps`) and/or a typo'd copy of
the command; the command itself is always appended afterwards.  The random
draws are explicit inputs: `navDraw` for the 0.3 navigation draw and, per
command, a 0.2 status draw, a 0.1 typo draw and a `random.choice` index. -/

/-- First whitespace-separated word of a command (`cmd.split()[0]`). -/
def firstWord (s : String) : String := (s.splitOn " ").headD ""

/-- Python's `s.replace(old, new, 1)`: replace the first occurrence. -/
def replaceFirst (s old new : String) : String :=
  match s.splitOn old with
  | [] => s
  | [_] => s
  | x :: rest => x ++ new ++ String.intercalate old rest

/-- The per-command body of `ContextualNoise.inject`'s `for` loop.
`typos` is the typo dictionary (`get_template("typos")` with the `{"git":
["gti"]}` fallback).  Each command consumes one triple of draws
`(status draw, typo draw, choice index)`. -/
def injectLoop (typos : List (String × List String)) :
    List (ℚ × ℚ × ℕ) → List String → List String
  | _, [] => []
  | draws, cmd :: rest =>
    (if (firstWord cmd == "git" || firstWord cmd == "docker")
        && decide ((draws.headD (1, 1, 0)).1 < 20/100) then
      [if firstWord cmd == "git" then "git status" else firstWord cmd ++ " ps"]
    else [])
    ++ (match typos.lookup (firstWord cmd) with
        | some lst =>
          if decide ((draws.headD (1, 1, 0)).2.1 < 10/100) && !lst.isEmpty then
            [replaceFirst cmd (firstWord cmd)
              (lst.getD ((draws.headD (1, 1, 0)).2.2 % lst.length) (firstWord cmd))]
          else []
        | none => [])
    ++ cmd :: injectLoop typos draws.tail rest

/-- `ContextualNoise.inject` / `StrategyManager.apply_noise`. -/
def apply_noise (typos : List (String × List String)) (navDraw : ℚ)
    (draws : List (ℚ × ℚ × ℕ)) (commands : List String) : List String :=
  (if navDraw < 30/100 then ["ls -la", "pwd"] else [])
    ++ injectLoop typos draws commands

/-! ### C10: noise only inserts -/

lemma injectLoop_sublist (typos : List (String × List String)) :
    ∀ (commands : List String) (draws : List (ℚ × ℚ × ℕ)),
      commands.Sublist (injectLoop typos draws commands) := by
  intro commands
  induction commands with
  | nil => intro draws; simp [injectLoop]
  | cons cmd rest ih =>
    intro draws
    have h1 : (cmd :: rest).Sublist (cmd :: injectLoop typos draws.tail rest) :=
      (ih draws.tail).cons₂ cmd
    conv_rhs => rw [injectLoop]
    exact h1.trans (List.sublist_append_right _ _)

/-- C10: noise injection only inserts extra commands: the original command
list is a sublist of the output — every original command appears verbatim,
in its original relative order; nothing is dropped, rewritten in place or
reordered. -/
theorem apply_noise_preserves_commands (typos : List (String × List String))
    (navDraw : ℚ) (draws : List (ℚ × ℚ × ℕ)) (commands : List String) :
    commands.Sublist (apply_noise typos navDraw draws commands) := by
  unfold apply_noise
  exact (injectLoop_sublist typos commands draws).trans
    (List.sublist_append_right _ _)

end Deception
